import Mathlib

/-!
Verification development for the dpymail library: a shallow embedding of
`mailserverconnection.py`, `mail.py` and `mailaddress.py`, together with
theorems about the embedded operations.

The IMAP server itself (the `imaplib` session) is an external collaborator;
it is modelled through the interface the code consumes: a successful UID
search returns the list of indexed identifiers in ascending order, a search
for the range `K:*` returns the indexed identifiers that are at least `K`,
and a fetch for one identifier either fails at the protocol level, succeeds
with no payload, or succeeds with the raw message payload.
-/

namespace Dpymail

/-- Result of one IMAP `fetch` of a single UID, as the code observes it:
a non-OK status (the code raises `MailLoadException`), an OK status whose
message data is empty (the code raises `MailMessageDataNotFoundException`,
a race seen on Gmail), or an OK status carrying the raw message payload. -/
inductive FetchResult where
  | fetchFailed
  | noData
  | ok (msgData : String)
deriving DecidableEq

/-- Predicate selecting the successful fetch outcome. -/
def FetchResult.isOk : FetchResult → Bool
  | .ok _ => true
  | _ => false

/-- Errors of the connection layer that a mail load can raise:
`loadError` embeds `MailLoadException` (fetch status not OK) and
`messageDataNotFound` embeds `MailMessageDataNotFoundException`
(fetch status OK but no payload for the UID). -/
inductive MailError where
  | loadError
  | messageDataNotFound
deriving DecidableEq

/-- State of the mailbox as observed through one IMAP session:
`uids` is the identifier list a successful `search ALL` reports (ascending,
as the server returns it) and `fetch` gives the outcome of fetching each
identifier. -/
structure Mailbox where
  uids : List Nat
  fetch : Nat → FetchResult

/-- Connection-level view of one loaded mail, as produced by
`_create_lmap_mail_instalce`: its UID and the raw fetched payload. -/
structure Mail where
  uid : Nat
  msgData : String
deriving DecidableEq

/-- Embedding of `IMAPSSLConnection._search_all`: the server reports the
identifier list; the method returns `None` (here `none`) when the mailbox
is empty, otherwise the split identifier list. -/
def search_all (mb : Mailbox) : Option (List Nat) :=
  if mb.uids.isEmpty then none else some mb.uids

/-- Embedding of `IMAPSSLConnection._search_by_uid` applied to a range
criterion `lo:*`: per the external interface, the server returns the
indexed identifiers that are at least `lo`; the method returns `none`
when that set is empty. -/
def search_by_uid_range (mb : Mailbox) (lo : Nat) : Option (List Nat) :=
  let r := mb.uids.filter (fun u => decide (lo ≤ u))
  if r.isEmpty then none else some r

/-- Embedding of `IMAPSSLConnection._search_over_than_uid`: the criterion
built from a reference UID is the inclusive range from `uid + 1` to the
end of the index. -/
def search_over_than_uid (mb : Mailbox) (uid : Nat) : Option (List Nat) :=
  search_by_uid_range mb (uid + 1)

/-- Embedding of `IMAPSSLConnection.__load_mail_by_uid`: a non-OK fetch
status raises `MailLoadException`; an OK status with empty message data
raises `MailMessageDataNotFoundException`; otherwise the mail instance is
built from the UID and the payload. -/
def loadMailByUid (mb : Mailbox) (uid : Nat) : Except MailError Mail :=
  match mb.fetch uid with
  | .fetchFailed => .error .loadError
  | .noData => .error .messageDataNotFound
  | .ok d => .ok ⟨uid, d⟩

/-- Embedding of the Python slice `uid_list[(n * -1):]` used by
`lastest_mail_by_count`: with `n = 0` the slice `[-0:]` is `[0:]`, the
whole list; with `n ≥ 1` it is the last `n` elements. -/
def pySliceLastNeg (l : List α) (n : Nat) : List α :=
  if n = 0 then l else l.drop (l.length - n)

/-- Embedding of the list comprehension
`[self.__load_mail_by_uid(uid) for uid in lastest_uid_list]`: each
identifier is loaded in order and any load error propagates uncaught. -/
def load_mails_list (mb : Mailbox) : List Nat → Except MailError (List Mail)
  | [] => .ok []
  | uid :: rest =>
    match loadMailByUid mb uid with
    | .ok m => Except.map (fun ms => m :: ms) (load_mails_list mb rest)
    | .error e => .error e

/-- Embedding of `IMAPSSLConnection.lastest_mail_by_count`: search all
identifiers, return `[]` when the search reports no mail, take the whole
list when its length is at most `getmailcount`, otherwise slice the last
`getmailcount` identifiers, and load each one (a load failure propagates,
the list comprehension catches nothing). -/
def lastest_mail_by_count (mb : Mailbox) (getmailcount : Nat) :
    Except MailError (List Mail) :=
  match search_all mb with
  | none => .ok []
  | some uid_list =>
    let lastest_uid_list :=
      if uid_list.length ≤ getmailcount then uid_list
      else pySliceLastNeg uid_list getmailcount
    load_mails_list mb lastest_uid_list

/-- Embedding of the fetch loop of
`IMAPSSLConnection.lastest_mail_over_than_arg_mail`: identifiers are loaded
in order; `MailMessageDataNotFoundException` is caught and stops the loop,
returning the mails accumulated so far; any other load error propagates.
The first component is instrumentation recording which identifiers were
actually fetched, in order. -/
def load_mails_until_gap (mb : Mailbox) :
    List Nat → List Nat × Except MailError (List Mail)
  | [] => ([], .ok [])
  | uid :: rest =>
    match loadMailByUid mb uid with
    | .ok m =>
        let p := load_mails_until_gap mb rest
        (uid :: p.1, Except.map (fun ms => m :: ms) p.2)
    | .error .messageDataNotFound => ([uid], .ok [])
    | .error .loadError => ([uid], .error .loadError)

/-- Embedding of `IMAPSSLConnection.lastest_mail_over_than_arg_mail`:
search the identifiers over the reference mail's UID, return `[]` when the
search reports none, otherwise run the fetch loop. The first component is
the instrumented list of identifiers actually fetched. -/
def lastest_mail_over_than_arg_mail (mb : Mailbox) (refUid : Nat) :
    List Nat × Except MailError (List Mail) :=
  match search_over_than_uid mb refUid with
  | none => ([], .ok [])
  | some uid_list => load_mails_until_gap mb uid_list

theorem isOk_iff_exists (r : FetchResult) :
    r.isOk = true ↔ ∃ d, r = .ok d := by
  cases r <;> simp [FetchResult.isOk]

theorem load_mails_list_all_ok (mb : Mailbox) (l : List Nat)
    (hf : ∀ u ∈ l, (mb.fetch u).isOk = true) :
    ∃ ms, load_mails_list mb l = Except.ok ms ∧
      ms.map Mail.uid = l ∧ ms.length = l.length ∧
      ∀ m ∈ ms, mb.fetch m.uid = FetchResult.ok m.msgData := by
  induction l with
  | nil => exact ⟨[], by simp [load_mails_list]⟩
  | cons u rest ih =>
    obtain ⟨d, hd⟩ := (isOk_iff_exists _).1 (hf u (by simp))
    obtain ⟨ms, hms, hmap, hlen, hmem⟩ := ih (fun v hv => hf v (by simp [hv]))
    refine ⟨⟨u, d⟩ :: ms, ?_, by simp [hmap], by simp [hlen], ?_⟩
    · simp [load_mails_list, loadMailByUid, hd, hms, Except.map]
    · intro m hm
      rcases List.mem_cons.1 hm with h | h
      · subst h; exact hd
      · exact hmem m h

theorem load_mails_until_gap_all_ok (mb : Mailbox) (l : List Nat)
    (hf : ∀ u ∈ l, (mb.fetch u).isOk = true) :
    ∃ ms, load_mails_until_gap mb l = (l, Except.ok ms) ∧
      ms.map Mail.uid = l ∧
      ∀ m ∈ ms, mb.fetch m.uid = FetchResult.ok m.msgData := by
  induction l with
  | nil => exact ⟨[], by simp [load_mails_until_gap]⟩
  | cons u rest ih =>
    obtain ⟨d, hd⟩ := (isOk_iff_exists _).1 (hf u (by simp))
    obtain ⟨ms, hms, hmap, hmem⟩ := ih (fun v hv => hf v (by simp [hv]))
    refine ⟨⟨u, d⟩ :: ms, ?_, by simp [hmap], ?_⟩
    · simp [load_mails_until_gap, loadMailByUid, hd, hms, Except.map]
    · intro m hm
      rcases List.mem_cons.1 hm with h | h
      · subst h; exact hd
      · exact hmem m h

theorem load_mails_until_gap_gap (mb : Mailbox) (pre : List Nat) (gap : Nat)
    (post : List Nat)
    (hpre : ∀ u ∈ pre, (mb.fetch u).isOk = true)
    (hgap : mb.fetch gap = .noData) :
    ∃ ms, load_mails_until_gap mb (pre ++ gap :: post) = (pre ++ [gap], Except.ok ms) ∧
      ms.map Mail.uid = pre ∧
      ∀ m ∈ ms, mb.fetch m.uid = FetchResult.ok m.msgData := by
  induction pre with
  | nil =>
    refine ⟨[], ?_, rfl, by simp⟩
    simp [load_mails_until_gap, loadMailByUid, hgap]
  | cons u rest ih =>
    obtain ⟨d, hd⟩ := (isOk_iff_exists _).1 (hpre u (by simp))
    obtain ⟨ms, hms, hmap, hmem⟩ := ih (fun v hv => hpre v (by simp [hv]))
    refine ⟨⟨u, d⟩ :: ms, ?_, by simp [hmap], ?_⟩
    · simp [load_mails_until_gap, loadMailByUid, hd, hms, Except.map]
    · intro m hm
      rcases List.mem_cons.1 hm with h | h
      · subst h; exact hd
      · exact hmem m h

/-- C10: for a non-empty mailbox, `lastest_mail_by_count` with
`getmailcount = 0` returns all messages in the mailbox rather than the
empty list: the size check `len(uid_list) <= 0` fails for a non-empty
mailbox, and the Python slice `uid_list[-0:]` is the whole identifier
list. -/
theorem c10_zero_count_returns_all (mb : Mailbox)
    (hne : mb.uids ≠ [])
    (hf : ∀ u ∈ mb.uids, (mb.fetch u).isOk = true) :
    ∃ ms, lastest_mail_by_count mb 0 = Except.ok ms ∧
      ms.map Mail.uid = mb.uids ∧ ms ≠ [] := by
  obtain ⟨ms, hok, hmap, hmem⟩ := load_mails_list_all_ok mb mb.uids hf
  have hlen : ¬ mb.uids.length ≤ 0 := by
    simpa [Nat.pos_iff_ne_zero, List.length_eq_zero] using hne
  refine ⟨ms, ?_, hmap, ?_⟩
  · simp [lastest_mail_by_count, search_all, List.isEmpty_iff, hne, hlen,
      pySliceLastNeg, hok]
  · intro h
    subst h
    simp at hmap
    exact hne hmap.symm.symm

/-- Witness for C10 at a concrete mailbox holding identifiers 7 and 9. -/
def mbC10 : Mailbox := ⟨[7, 9], fun _ => .ok "x"⟩

theorem c10_zero_count_returns_all_witness :
    mbC10.uids ≠ [] ∧
    ∃ ms, lastest_mail_by_count mbC10 0 = Except.ok ms ∧
      ms.map Mail.uid = mbC10.uids ∧ ms ≠ [] :=
  ⟨by decide, c10_zero_count_returns_all mbC10 (by decide) (by decide)⟩

/-- C5 (amended): for every `n ≥ 1`, `lastest_mail_by_count` returns the
`min n total` most recent messages in ascending identifier order; with
fewer than `n` messages it returns all of them, and on an empty mailbox it
returns the empty list. -/
theorem c5_latest_by_count (mb : Mailbox) (n : Nat) (hn : 1 ≤ n)
    (hs : List.Sorted (· < ·) mb.uids)
    (hf : ∀ u ∈ mb.uids, (mb.fetch u).isOk = true) :
    ∃ ms, lastest_mail_by_count mb n = Except.ok ms ∧
      ms.map Mail.uid = mb.uids.drop (mb.uids.length - n) ∧
      List.Sorted (· < ·) (ms.map Mail.uid) ∧
      ms.length = min n mb.uids.length ∧
      (mb.uids.length < n → ms.map Mail.uid = mb.uids) ∧
      (mb.uids = [] → ms = []) := by
  by_cases hne : mb.uids = []
  · refine ⟨[], ?_, by simp [hne], by simp, by simp [hne], by simp [hne], by simp⟩
    simp [lastest_mail_by_count, search_all, hne]
  · have hslice :
        (if mb.uids.length ≤ n then mb.uids else pySliceLastNeg mb.uids n) =
          mb.uids.drop (mb.uids.length - n) := by
      by_cases hle : mb.uids.length ≤ n
      · simp [hle, Nat.sub_eq_zero_of_le hle]
      · have hn0 : n ≠ 0 := by omega
        simp [hle, pySliceLastNeg, hn0]
    have hsub : ∀ u ∈ mb.uids.drop (mb.uids.length - n), u ∈ mb.uids :=
      fun u hu => List.drop_subset _ _ hu
    obtain ⟨ms, hok, hmap, hlen, _⟩ :=
      load_mails_list_all_ok mb (mb.uids.drop (mb.uids.length - n))
        (fun u hu => hf u (hsub u hu))
    refine ⟨ms, ?_, hmap, ?_, ?_, ?_, fun h => absurd h hne⟩
    · have hsa : search_all mb = some mb.uids := by
        simp [search_all, List.isEmpty_iff, hne]
      unfold lastest_mail_by_count
      rw [hsa]
      show load_mails_list mb
          (if mb.uids.length ≤ n then mb.uids else pySliceLastNeg mb.uids n) =
        Except.ok ms
      rw [hslice]
      exact hok
    · rw [hmap]
      exact List.Pairwise.sublist (List.drop_sublist _ _) hs
    · rw [hlen, List.length_drop]
      omega
    · intro hlt
      rw [hmap, Nat.sub_eq_zero_of_le (Nat.le_of_lt hlt), List.drop_zero]

/-- Concrete mailbox with two messages used to refute C5 as stated. -/
def mbC5 : Mailbox := ⟨[1, 2], fun _ => .ok "m"⟩

/-- C5 counterexample: the claim quantifies over every `n`, but at `n = 0`
on a non-empty mailbox the code returns all messages, not the `0` most
recent (which would be the empty list). -/
theorem c5_counterexample :
    lastest_mail_by_count mbC5 0 = Except.ok [⟨1, "m"⟩, ⟨2, "m"⟩] ∧
    lastest_mail_by_count mbC5 0 ≠ Except.ok [] := by
  constructor
  · rfl
  · intro h
    rw [show lastest_mail_by_count mbC5 0 =
        Except.ok [(⟨1, "m"⟩ : Mail), ⟨2, "m"⟩] from rfl] at h
    simp at h

/-- Concrete mailbox with three messages for the C5 witness. -/
def mbC5w : Mailbox := ⟨[1, 2, 3], fun _ => .ok "w"⟩

theorem c5_latest_by_count_witness :
    1 ≤ 2 ∧
    ∃ ms, lastest_mail_by_count mbC5w 2 = Except.ok ms ∧
      ms.map Mail.uid = mbC5w.uids.drop (mbC5w.uids.length - 2) ∧
      List.Sorted (· < ·) (ms.map Mail.uid) ∧
      ms.length = min 2 mbC5w.uids.length ∧
      (mbC5w.uids.length < 2 → ms.map Mail.uid = mbC5w.uids) ∧
      (mbC5w.uids = [] → ms = []) :=
  ⟨by decide, c5_latest_by_count mbC5w 2 (by decide) (by decide) (by decide)⟩

theorem filter_ge_succ_eq_filter_lt (l : List Nat) (x : Nat) :
    l.filter (fun u => decide (x + 1 ≤ u)) = l.filter (fun u => decide (x < u)) := by
  apply List.filter_congr
  intro u _
  simp [Nat.lt_iff_add_one_le]

/-- C4: with the mailbox index sorted ascending and every identifier over
the reference fetchable, `lastest_mail_over_than_arg_mail` returns exactly
the messages whose identifier is strictly greater than the reference UID,
in ascending order, the empty list when there are none; and the underlying
search is the inclusive range from `x + 1` to the end of the index. -/
theorem c4_over_than_scan (mb : Mailbox) (x : Nat)
    (hs : List.Sorted (· < ·) mb.uids)
    (hf : ∀ u ∈ mb.uids, x < u → (mb.fetch u).isOk = true) :
    ∃ ms, (lastest_mail_over_than_arg_mail mb x).2 = Except.ok ms ∧
      ms.map Mail.uid = mb.uids.filter (fun u => decide (x < u)) ∧
      List.Sorted (· < ·) (ms.map Mail.uid) ∧
      (∀ m ∈ ms, mb.fetch m.uid = FetchResult.ok m.msgData) ∧
      ((∀ u ∈ mb.uids, ¬ x < u) → ms = []) ∧
      search_over_than_uid mb x = search_by_uid_range mb (x + 1) := by
  have hfe := filter_ge_succ_eq_filter_lt mb.uids x
  have hsl : List.Sorted (· < ·) (mb.uids.filter (fun u => decide (x < u))) :=
    List.Pairwise.sublist (List.filter_sublist _) hs
  by_cases hemp : (mb.uids.filter (fun u => decide (x < u))) = []
  · refine ⟨[], ?_, by simp [hemp], by simp, by simp, by simp, rfl⟩
    simp [lastest_mail_over_than_arg_mail, search_over_than_uid,
      search_by_uid_range, hfe, hemp]
  · obtain ⟨ms, hrun, hmap, hmem⟩ :=
      load_mails_until_gap_all_ok mb (mb.uids.filter (fun u => decide (x < u)))
        (fun u hu => hf u (List.mem_of_mem_filter hu)
          (by simpa using List.of_mem_filter hu))
    refine ⟨ms, ?_, hmap, by rw [hmap]; exact hsl, hmem, ?_, rfl⟩
    · have hsearch : search_over_than_uid mb x =
          some (mb.uids.filter (fun u => decide (x < u))) := by
        simp [search_over_than_uid, search_by_uid_range, hfe,
          List.isEmpty_iff, hemp]
      simp [lastest_mail_over_than_arg_mail, hsearch, hrun]
    · intro hnone
      exfalso
      exact hemp (List.filter_eq_nil_iff.2 (fun u hu => by simpa using hnone u hu))

/-- Concrete mailbox for the C4 witness: identifiers 1, 2, 3, all
fetchable, reference UID 1. -/
def mbC4 : Mailbox := ⟨[1, 2, 3], fun _ => .ok "c"⟩

theorem c4_over_than_scan_witness :
    List.Sorted (· < ·) mbC4.uids ∧
    ∃ ms, (lastest_mail_over_than_arg_mail mbC4 1).2 = Except.ok ms ∧
      ms.map Mail.uid = mbC4.uids.filter (fun u => decide (1 < u)) ∧
      List.Sorted (· < ·) (ms.map Mail.uid) ∧
      (∀ m ∈ ms, mbC4.fetch m.uid = FetchResult.ok m.msgData) ∧
      ((∀ u ∈ mbC4.uids, ¬ 1 < u) → ms = []) ∧
      search_over_than_uid mbC4 1 = search_by_uid_range mbC4 (1 + 1) :=
  ⟨by decide, c4_over_than_scan mbC4 1 (by decide) (by decide)⟩

/-- C2: when the search result decomposes as `pre ++ gap :: post` with every
identifier of `pre` fetchable and `gap` fetching no data, the scan fetches
exactly `pre ++ [gap]` (it stops at the first gap, so the identifiers of
`post` are never fetched), catches the error internally, and returns the
messages already fetched as a normal result. -/
theorem c2_gap_ends_scan (mb : Mailbox) (x gap : Nat) (pre post : List Nat)
    (hsearch : search_over_than_uid mb x = some (pre ++ gap :: post))
    (hpre : ∀ u ∈ pre, (mb.fetch u).isOk = true)
    (hgap : mb.fetch gap = .noData) :
    ∃ ms, lastest_mail_over_than_arg_mail mb x = (pre ++ [gap], Except.ok ms) ∧
      ms.map Mail.uid = pre ∧
      ∀ m ∈ ms, mb.fetch m.uid = FetchResult.ok m.msgData := by
  obtain ⟨ms, hrun, hmap, hmem⟩ :=
    load_mails_until_gap_gap mb pre gap post hpre hgap
  exact ⟨ms, by simp [lastest_mail_over_than_arg_mail, hsearch, hrun], hmap, hmem⟩

/-- Concrete mailbox for the C2 witness: identifiers 5, 6, 7 over the
reference 4; identifier 6 fetches no data (the Gmail race). -/
def mbC2 : Mailbox :=
  ⟨[5, 6, 7], fun u => if u = 6 then .noData else .ok "r"⟩

theorem c2_gap_ends_scan_witness :
    search_over_than_uid mbC2 4 = some ([5] ++ 6 :: [7]) ∧
    ∃ ms, lastest_mail_over_than_arg_mail mbC2 4 = ([5] ++ [6], Except.ok ms) ∧
      ms.map Mail.uid = [5] ∧
      ∀ m ∈ ms, mbC2.fetch m.uid = FetchResult.ok m.msgData :=
  ⟨by decide, c2_gap_ends_scan mbC2 4 6 [5] [7] (by decide) (by decide) (by decide)⟩

/-- One poll cycle of `MailCheckPoint.monitoring_new_mails` as the loop
observes it: the mailbox state seen through the freshly created connection
of that cycle (the loop replaces its connection every cycle and disconnects
the superseded one, teardown errors swallowed), and the elapsed wall time
`time.time() - start_time` measured at the timeout check of that cycle. -/
structure Cycle where
  mb : Mailbox
  elapsed : Nat

/-- Mutable state of the monitoring loop: the checkpoint reference mail's
UID (`self._checkpoint_mail`), plus instrumentation recording the reference
UID used by each `lastest_mail_over_than_arg_mail` query, in order. -/
structure MonState where
  checkpoint_uid : Nat
  queries : List Nat
deriving DecidableEq

/-- Outcome of running the monitoring loop over a finite list of observed
cycles: the callback requested termination (`break`), the timeout check
raised `MailMonitoringTimeoutException`, a load error propagated uncaught,
or the supplied cycles ran out with the loop still going. -/
inductive MonitorResult where
  | stopped
  | timedOut
  | failed (e : MailError)
  | running
deriving DecidableEq

/-- Embedding of the `while True` loop of
`MailCheckPoint.monitoring_new_mails`: each cycle queries the mails over
the current checkpoint UID on that cycle's fresh connection; on a
non-empty batch the callback runs and a truthy return breaks the loop
before the timeout check; the checkpoint update to `new_mails[-1]` is
commented out in the source, so the state's `checkpoint_uid` is never
reassigned; otherwise the elapsed time is compared with `timeout_sec`. -/
def monitoringLoop (cb : List Mail → Bool) (timeout_sec : Nat) :
    MonState → List Cycle → MonState × MonitorResult
  | st, [] => (st, .running)
  | st, c :: rest =>
    let st' : MonState := ⟨st.checkpoint_uid, st.queries ++ [st.checkpoint_uid]⟩
    match (lastest_mail_over_than_arg_mail c.mb st.checkpoint_uid).2 with
    | .error e => (st', .failed e)
    | .ok new_mails =>
      if !new_mails.isEmpty && cb new_mails then (st', .stopped)
      else if timeout_sec ≤ c.elapsed then (st', .timedOut)
      else monitoringLoop cb timeout_sec st' rest

/-- Embedding of `MailCheckPoint.monitoring_new_mails` started from a
checkpoint whose reference mail has UID `cp`, run against the given list
of observed cycles (the sleep between cycles is reflected only in each
cycle's elapsed time). -/
def monitoring_new_mails (cp : Nat) (cb : List Mail → Bool)
    (timeout_sec : Nat) (cycles : List Cycle) : MonState × MonitorResult :=
  monitoringLoop cb timeout_sec ⟨cp, []⟩ cycles

theorem monitoringLoop_checkpoint_fixed (cb : List Mail → Bool)
    (timeout_sec : Nat) (st : MonState) (cycles : List Cycle) :
    (monitoringLoop cb timeout_sec st cycles).1.checkpoint_uid =
      st.checkpoint_uid := by
  induction cycles generalizing st with
  | nil => rfl
  | cons c rest ih =>
    unfold monitoringLoop
    cases (lastest_mail_over_than_arg_mail c.mb st.checkpoint_uid).2 with
    | error e => rfl
    | ok new_mails =>
      by_cases h1 : (!new_mails.isEmpty && cb new_mails) = true
      · simp [h1]
      · by_cases h2 : timeout_sec ≤ c.elapsed
        · simp [h1, h2]
        · simpa [h1, h2] using ih ⟨st.checkpoint_uid, st.queries ++ [st.checkpoint_uid]⟩

theorem monitoringLoop_queries_are_checkpoint (cb : List Mail → Bool)
    (timeout_sec : Nat) (st : MonState) (cycles : List Cycle) :
    ∀ q ∈ (monitoringLoop cb timeout_sec st cycles).1.queries,
      q ∈ st.queries ∨ q = st.checkpoint_uid := by
  induction cycles generalizing st with
  | nil => exact fun q hq => Or.inl hq
  | cons c rest ih =>
    intro q hq
    unfold monitoringLoop at hq
    have hsplit : q ∈ st.queries ++ [st.checkpoint_uid] →
        q ∈ st.queries ∨ q = st.checkpoint_uid := by
      intro h
      rcases List.mem_append.1 h with h | h
      · exact Or.inl h
      · exact Or.inr (by simpa using h)
    cases hc : (lastest_mail_over_than_arg_mail c.mb st.checkpoint_uid).2 with
    | error e =>
      rw [hc] at hq
      exact hsplit hq
    | ok new_mails =>
      rw [hc] at hq
      by_cases h1 : (!new_mails.isEmpty && cb new_mails) = true
      · simp only [h1, if_true] at hq
        exact hsplit hq
      · by_cases h2 : timeout_sec ≤ c.elapsed
        · simp only [h1, if_false, Bool.false_eq_true, h2, if_true] at hq
          exact hsplit hq
        · simp only [h1, if_false, Bool.false_eq_true, h2, if_true] at hq
          rcases ih ⟨st.checkpoint_uid, st.queries ++ [st.checkpoint_uid]⟩ q hq with
            h | h
          · exact hsplit h
          · exact Or.inr h

/-- C1: across every run of `monitoring_new_mails`, the checkpoint's
reference UID is unchanged by the loop (the advancing assignment is
commented out in the source), and every cycle's query uses the original
reference UID, never the last delivered batch. -/
theorem c1_checkpoint_frame (cp : Nat) (cb : List Mail → Bool)
    (timeout_sec : Nat) (cycles : List Cycle) :
    (monitoring_new_mails cp cb timeout_sec cycles).1.checkpoint_uid = cp ∧
    ∀ q ∈ (monitoring_new_mails cp cb timeout_sec cycles).1.queries, q = cp := by
  constructor
  · exact monitoringLoop_checkpoint_fixed cb timeout_sec ⟨cp, []⟩ cycles
  · intro q hq
    rcases monitoringLoop_queries_are_checkpoint cb timeout_sec ⟨cp, []⟩ cycles q hq
      with h | h
    · cases h
    · exact h

/-- Stop condition of one cycle relative to a checkpoint UID: the query
succeeds, the batch is non-empty, and the callback returns the truthy
termination signal. -/
def cycleStops (cb : List Mail → Bool) (cp : Nat) (c : Cycle) : Bool :=
  match (lastest_mail_over_than_arg_mail c.mb cp).2 with
  | .ok l => !l.isEmpty && cb l
  | .error _ => false

/-- Failure condition of one cycle relative to a checkpoint UID: the query
propagates a load error. -/
def cycleFails (cp : Nat) (c : Cycle) : Bool :=
  match (lastest_mail_over_than_arg_mail c.mb cp).2 with
  | .ok _ => false
  | .error _ => true

theorem monitoringLoop_cons_error (cb : List Mail → Bool) (timeout_sec : Nat)
    (st : MonState) (c : Cycle) (rest : List Cycle) (e : MailError)
    (hr : (lastest_mail_over_than_arg_mail c.mb st.checkpoint_uid).2 = .error e) :
    monitoringLoop cb timeout_sec st (c :: rest) =
      (⟨st.checkpoint_uid, st.queries ++ [st.checkpoint_uid]⟩, .failed e) := by
  conv_lhs => unfold monitoringLoop
  rw [hr]

theorem monitoringLoop_cons_ok (cb : List Mail → Bool) (timeout_sec : Nat)
    (st : MonState) (c : Cycle) (rest : List Cycle) (new_mails : List Mail)
    (hr : (lastest_mail_over_than_arg_mail c.mb st.checkpoint_uid).2 = .ok new_mails) :
    monitoringLoop cb timeout_sec st (c :: rest) =
      (if !new_mails.isEmpty && cb new_mails then
        (⟨st.checkpoint_uid, st.queries ++ [st.checkpoint_uid]⟩, .stopped)
      else if timeout_sec ≤ c.elapsed then
        (⟨st.checkpoint_uid, st.queries ++ [st.checkpoint_uid]⟩, .timedOut)
      else
        monitoringLoop cb timeout_sec
          ⟨st.checkpoint_uid, st.queries ++ [st.checkpoint_uid]⟩ rest) := by
  conv_lhs => unfold monitoringLoop
  rw [hr]

theorem monitoringLoop_timedOut_iff (cb : List Mail → Bool) (timeout_sec : Nat)
    (st : MonState) (cycles : List Cycle) :
    (monitoringLoop cb timeout_sec st cycles).2 = .timedOut ↔
      ∃ pre c post, cycles = pre ++ c :: post ∧
        (∀ c' ∈ pre, cycleStops cb st.checkpoint_uid c' = false ∧
          cycleFails st.checkpoint_uid c' = false ∧
          c'.elapsed < timeout_sec) ∧
        cycleStops cb st.checkpoint_uid c = false ∧
        cycleFails st.checkpoint_uid c = false ∧
        timeout_sec ≤ c.elapsed := by
  induction cycles generalizing st with
  | nil =>
    constructor
    · intro h
      exact absurd h (by simp [monitoringLoop])
    · rintro ⟨pre, c, post, heq, -⟩
      exact absurd heq (by simp)
  | cons c rest ih =>
    cases hr : (lastest_mail_over_than_arg_mail c.mb st.checkpoint_uid).2 with
    | error e =>
      rw [monitoringLoop_cons_error cb timeout_sec st c rest e hr]
      have hcf : cycleFails st.checkpoint_uid c = true := by
        simp [cycleFails, hr]
      constructor
      · intro h
        exact absurd h (by simp)
      · rintro ⟨pre, c', post, heq, hpre, hstop', hfail', hts⟩
        exfalso
        cases pre with
        | nil =>
          simp only [List.nil_append, List.cons.injEq] at heq
          rw [heq.1] at hcf
          rw [hfail'] at hcf
          exact Bool.noConfusion hcf
        | cons p pre' =>
          rw [List.cons_append, List.cons.injEq] at heq
          have hp := (hpre p (by simp)).2.1
          rw [heq.1] at hcf
          rw [hp] at hcf
          exact Bool.noConfusion hcf
    | ok new_mails =>
      rw [monitoringLoop_cons_ok cb timeout_sec st c rest new_mails hr]
      by_cases h1 : (!new_mails.isEmpty && cb new_mails) = true
      · have hcs : cycleStops cb st.checkpoint_uid c = true := by
          simp [cycleStops, hr, h1]
        rw [if_pos h1]
        constructor
        · intro h
          exact absurd h (by simp)
        · rintro ⟨pre, c', post, heq, hpre, hstop', hfail', hts⟩
          exfalso
          cases pre with
          | nil =>
            simp only [List.nil_append, List.cons.injEq] at heq
            rw [heq.1] at hcs
            rw [hstop'] at hcs
            exact Bool.noConfusion hcs
          | cons p pre' =>
            rw [List.cons_append, List.cons.injEq] at heq
            have hp := (hpre p (by simp)).1
            rw [heq.1] at hcs
            rw [hp] at hcs
            exact Bool.noConfusion hcs
      · have hcs : cycleStops cb st.checkpoint_uid c = false := by
          simp only [cycleStops, hr]
          exact Bool.eq_false_iff.2 h1
        have hcf : cycleFails st.checkpoint_uid c = false := by
          simp [cycleFails, hr]
        by_cases h2 : timeout_sec ≤ c.elapsed
        · rw [if_neg h1, if_pos h2]
          constructor
          · intro _
            exact ⟨[], c, rest, rfl, by simp, hcs, hcf, h2⟩
          · intro _
            rfl
        · rw [if_neg h1, if_neg h2]
          rw [ih ⟨st.checkpoint_uid, st.queries ++ [st.checkpoint_uid]⟩]
          constructor
          · rintro ⟨pre, c', post, heq, hpre, h3, h4, h5⟩
            refine ⟨c :: pre, c', post, by rw [heq, List.cons_append], ?_, h3, h4, h5⟩
            intro x hx
            rcases List.mem_cons.1 hx with hx | hx
            · subst hx
              exact ⟨hcs, hcf, by omega⟩
            · exact hpre x hx
          · rintro ⟨pre, c', post, heq, hpre, h3, h4, h5⟩
            cases pre with
            | nil =>
              simp only [List.nil_append, List.cons.injEq] at heq
              rw [heq.1] at h2
              exact absurd h5 h2
            | cons p pre' =>
              rw [List.cons_append, List.cons.injEq] at heq
              refine ⟨pre', c', post, heq.2, ?_, h3, h4, h5⟩
              intro x hx
              exact hpre x (by simp [hx])

theorem monitoringLoop_stops (cb : List Mail → Bool) (timeout_sec : Nat)
    (st : MonState) (pre : List Cycle) (c : Cycle) (post : List Cycle)
    (hpre : ∀ c' ∈ pre, cycleFails st.checkpoint_uid c' = false ∧
      c'.elapsed < timeout_sec)
    (hstop : cycleStops cb st.checkpoint_uid c = true) :
    (monitoringLoop cb timeout_sec st (pre ++ c :: post)).2 = .stopped := by
  induction pre generalizing st with
  | nil =>
    rw [List.nil_append]
    cases hr : (lastest_mail_over_than_arg_mail c.mb st.checkpoint_uid).2 with
    | error e =>
      rw [cycleStops, hr] at hstop
      exact Bool.noConfusion hstop
    | ok l =>
      have h1 : (!l.isEmpty && cb l) = true := by
        rw [cycleStops, hr] at hstop
        exact hstop
      rw [monitoringLoop_cons_ok cb timeout_sec st c post l hr, if_pos h1]
  | cons p pre' ih =>
    rw [List.cons_append]
    obtain ⟨hf, ht⟩ := hpre p (by simp)
    cases hr : (lastest_mail_over_than_arg_mail p.mb st.checkpoint_uid).2 with
    | error e =>
      rw [cycleFails, hr] at hf
      exact Bool.noConfusion hf
    | ok l =>
      rw [monitoringLoop_cons_ok cb timeout_sec st p (pre' ++ c :: post) l hr]
      by_cases h1 : (!l.isEmpty && cb l) = true
      · rw [if_pos h1]
      · have h2 : ¬ timeout_sec ≤ p.elapsed := by omega
        rw [if_neg h1, if_neg h2]
        exact ih ⟨st.checkpoint_uid, st.queries ++ [st.checkpoint_uid]⟩
          (fun x hx => hpre x (by simp [hx])) hstop

/-- C3: the monitoring loop raises the timeout exactly when some cycle
completes without a callback-requested stop (and without a propagating load
error) with its elapsed time at least `timeout_sec`, all earlier cycles
having neither stopped, failed, nor reached the timeout; and whenever a
reached cycle's callback requests the stop, the loop returns normally
(result `stopped`), even if that cycle's elapsed time already exceeds the
timeout. -/
theorem c3_timeout_semantics (cp : Nat) (cb : List Mail → Bool)
    (timeout_sec : Nat) (cycles : List Cycle) :
    ((monitoring_new_mails cp cb timeout_sec cycles).2 = .timedOut ↔
      ∃ pre c post, cycles = pre ++ c :: post ∧
        (∀ c' ∈ pre, cycleStops cb cp c' = false ∧ cycleFails cp c' = false ∧
          c'.elapsed < timeout_sec) ∧
        cycleStops cb cp c = false ∧ cycleFails cp c = false ∧
        timeout_sec ≤ c.elapsed) ∧
    (∀ pre c post, cycles = pre ++ c :: post →
      (∀ c' ∈ pre, cycleFails cp c' = false ∧ c'.elapsed < timeout_sec) →
      cycleStops cb cp c = true →
      (monitoring_new_mails cp cb timeout_sec cycles).2 = .stopped) := by
  constructor
  · exact monitoringLoop_timedOut_iff cb timeout_sec ⟨cp, []⟩ cycles
  · intro pre c post heq hpre hstop
    rw [monitoring_new_mails, heq]
    exact monitoringLoop_stops cb timeout_sec ⟨cp, []⟩ pre c post hpre hstop

/-- Concrete mailbox for the C3 witness: one new mail with UID 4 over the
checkpoint UID 3. -/
def mbC3 : Mailbox := ⟨[3, 4], fun _ => .ok "n"⟩

/-- Concrete cycle for the C3 witness: its elapsed time 100 is far past the
timeout of 2 seconds, yet the callback stop wins. -/
def cC3 : Cycle := ⟨mbC3, 100⟩

theorem c3_timeout_semantics_witness :
    cycleStops (fun _ => true) 3 cC3 = true ∧
    (monitoring_new_mails 3 (fun _ => true) 2 [cC3]).2 = .stopped := by
  refine ⟨by decide, ?_⟩
  exact (c3_timeout_semantics 3 (fun _ => true) 2 [cC3]).2 [] cC3 []
    rfl (by simp) (by decide)

/-- Test whether the characters of `l` start with the characters of
`pat`. -/
def startsWith : List Char → List Char → Bool
  | _, [] => true
  | [], _ :: _ => false
  | a :: as, b :: bs => a == b && startsWith as bs

/-- Test whether `pat` occurs as a contiguous run inside `l`; this embeds
the Python substring operator `in` on strings. -/
def containsSub : List Char → List Char → Bool
  | [], pat => pat.isEmpty
  | s :: rest, pat => startsWith (s :: rest) pat || containsSub rest pat

/-- Substring test on strings, embedding Python `pat in s`. -/
def strContains (s pat : String) : Bool := containsSub s.data pat.data

/-- Embedding of `str(part.get("Content-Disposition"))`: a missing header
is Python `None`, whose string conversion is the literal `"None"`. -/
def dispositionStr (d : Option String) : String := d.getD "None"

/-- One part of a parsed message as `email.message.walk` yields it: its
content type, its `Content-Disposition` header when present, and its
payload decoded to text (charset decoding is modelled separately). -/
structure MsgPart where
  contentType : String
  contentDisposition : Option String
  payloadDecoded : String
deriving DecidableEq

/-- Parsed message shape relevant to body selection: a multipart message
is its `walk()` sequence of parts in document order, a single-part message
is its sole part. -/
inductive EmailMessage where
  | multipart (walkParts : List MsgPart)
  | single (part : MsgPart)

/-- Criterion of the body-selection loop in `IMAPMail.__init__`: the
part's content type is exactly `text/plain` and the string `attachment`
does not occur in `str(part.get("Content-Disposition"))`. -/
def isBodyPart (p : MsgPart) : Bool :=
  p.contentType == "text/plain" &&
    !(strContains (dispositionStr p.contentDisposition) "attachment")

/-- The body-selection walk of `IMAPMail.__init__`: the first part in
document order satisfying `isBodyPart`, if any (the loop breaks at the
first match, leaving `_body_org` as `None` when none matches). -/
def findBodyPart (parts : List MsgPart) : Option MsgPart :=
  parts.find? isBodyPart

/-- Embedded `MailBody` hierarchy: the `PlainTextMailBody` and
`HTMLMailBody` variants, each holding its content type and raw content. -/
inductive MailBody where
  | plainText (contentType : String) (content : String)
  | htmlBody (contentType : String) (content : String)
deriving DecidableEq

/-- Raw content held by a body object (the `_content` attribute). -/
def MailBody.content : MailBody → String
  | .plainText _ s => s
  | .htmlBody _ s => s

/-- Embedding of the body-wrapping conditional of `IMAPMail.__init__`:
`if self._body_org:` is Python truthiness, so both `None` and the empty
string produce an empty `PlainTextMailBody("text/plain", "")`; otherwise a
`text/html` content type selects the HTML variant and anything else the
plain-text variant. -/
def wrapBody (contentType : String) (bodyOrg : Option String) : MailBody :=
  match bodyOrg with
  | some s =>
    if s.isEmpty then .plainText "text/plain" ""
    else if contentType == "text/html" then .htmlBody contentType s
    else .plainText contentType s
  | none => .plainText "text/plain" ""

/-- Embedding of the body construction in `IMAPMail.__init__`: a multipart
message takes the first matching walk part (whose content type at the
break is that part's), and `_body_org` stays `None` when no part matches;
a single-part message takes the whole message's content type and
payload. -/
def selectBody : EmailMessage → MailBody
  | .multipart parts =>
    match findBodyPart parts with
    | some p => wrapBody p.contentType (some p.payloadDecoded)
    | none => .plainText "text/plain" ""
  | .single p => wrapBody p.contentType (some p.payloadDecoded)

/-- C6: in a multipart message the body is the payload of the first
document-order walk part whose content type is exactly `text/plain` and
whose disposition does not mark an attachment, and the empty plain-text
body when no such part exists; in a single-part message the body is the
sole payload verbatim; whenever the selected body text is empty the body
object is the empty plain-text variant, never a null. -/
theorem c6_body_selection (parts : List MsgPart) (p q : MsgPart) :
    (findBodyPart parts = some p →
      (selectBody (.multipart parts)).content = p.payloadDecoded ∧
      p ∈ parts ∧ p.contentType = "text/plain" ∧
      strContains (dispositionStr p.contentDisposition) "attachment" = false) ∧
    (findBodyPart parts = none →
      selectBody (.multipart parts) = .plainText "text/plain" "") ∧
    ((selectBody (.single q)).content = q.payloadDecoded) ∧
    (∀ m : EmailMessage, (selectBody m).content = "" →
      selectBody m = .plainText "text/plain" "") := by
  refine ⟨?_, ?_, ?_, ?_⟩
  · intro h
    have hsat : isBodyPart p = true := List.find?_some h
    simp only [isBodyPart, Bool.and_eq_true, beq_iff_eq, Bool.not_eq_true',
      Bool.not_eq_true] at hsat
    refine ⟨?_, List.mem_of_find?_eq_some h, hsat.1, hsat.2⟩
    simp only [selectBody, h, wrapBody]
    by_cases he : p.payloadDecoded.isEmpty
    · rw [if_pos he, MailBody.content]
      exact ((String.isEmpty_iff _).1 he).symm
    · rw [if_neg he]
      by_cases hh : (p.contentType == "text/html") = true
      · rw [if_pos hh, MailBody.content]
      · rw [if_neg hh, MailBody.content]
  · intro h
    simp only [selectBody, h]
  · simp only [selectBody, wrapBody]
    by_cases he : q.payloadDecoded.isEmpty
    · rw [if_pos he, MailBody.content]
      exact ((String.isEmpty_iff _).1 he).symm
    · rw [if_neg he]
      by_cases hh : (q.contentType == "text/html") = true
      · rw [if_pos hh, MailBody.content]
      · rw [if_neg hh, MailBody.content]
  · intro m hm
    cases m with
    | multipart parts' =>
      cases hfp : findBodyPart parts' with
      | none => simp only [selectBody, hfp]
      | some r =>
        simp only [selectBody, hfp, wrapBody] at hm ⊢
        by_cases he : r.payloadDecoded.isEmpty
        · rw [if_pos he]
        · rw [if_neg he] at hm ⊢
          by_cases hh : (r.contentType == "text/html") = true
          · rw [if_pos hh] at hm
            rw [MailBody.content] at hm
            exact absurd ((String.isEmpty_iff _).2 hm) he
          · rw [if_neg hh] at hm
            rw [MailBody.content] at hm
            exact absurd ((String.isEmpty_iff _).2 hm) he
    | single r =>
      simp only [selectBody, wrapBody] at hm ⊢
      by_cases he : r.payloadDecoded.isEmpty
      · rw [if_pos he]
      · rw [if_neg he] at hm ⊢
        by_cases hh : (r.contentType == "text/html") = true
        · rw [if_pos hh] at hm
          rw [MailBody.content] at hm
          exact absurd ((String.isEmpty_iff _).2 hm) he
        · rw [if_neg hh] at hm
          rw [MailBody.content] at hm
          exact absurd ((String.isEmpty_iff _).2 hm) he

/-- Concrete HTML part for the C6 witness. -/
def htmlPartC6 : MsgPart := ⟨"text/html", none, "<p>x</p>"⟩

/-- Concrete plain-text attachment part for the C6 witness. -/
def attachPartC6 : MsgPart :=
  ⟨"text/plain", some "attachment; filename=a.txt", "afile"⟩

/-- Concrete qualifying plain-text part for the C6 witness. -/
def plainPartC6 : MsgPart := ⟨"text/plain", none, "hello"⟩

/-- Multipart walk sequence for the C6 witness. -/
def partsC6 : List MsgPart := [htmlPartC6, attachPartC6, plainPartC6]

theorem c6_body_selection_witness :
    findBodyPart partsC6 = some plainPartC6 ∧
    ((selectBody (.multipart partsC6)).content = plainPartC6.payloadDecoded ∧
      plainPartC6 ∈ partsC6 ∧ plainPartC6.contentType = "text/plain" ∧
      strContains (dispositionStr plainPartC6.contentDisposition)
        "attachment" = false) :=
  ⟨by decide, (c6_body_selection partsC6 plainPartC6 plainPartC6).1 (by decide)⟩

/-- Truthiness of Python `data.strip()`: the stripped string is empty
exactly when every character of `data` is whitespace. -/
def isWsOnly (s : String) : Bool := s.data.all Char.isWhitespace

/-- Tokenizer modelling how `html.parser.HTMLParser.feed` splits markup:
characters between `<` and `>` belong to a tag and are consumed silently;
each maximal run of characters outside tags is handed to `handle_data` as
one text node. The accumulator holds the current text run reversed. -/
def htmlTokenize : List Char → Bool → List Char → List String
  | [], _, acc => if acc.isEmpty then [] else [String.mk acc.reverse]
  | ch :: rest, true, acc =>
    if ch = '>' then htmlTokenize rest false acc
    else htmlTokenize rest true acc
  | ch :: rest, false, acc =>
    if ch = '<' then
      if acc.isEmpty then htmlTokenize rest true []
      else String.mk acc.reverse :: htmlTokenize rest true []
    else htmlTokenize rest false (ch :: acc)

/-- Text nodes of an HTML string in document order. -/
def htmlTextNodes (s : String) : List String := htmlTokenize s.data false []

/-- Embedding of `_HtmlParser.handle_data`: a data node is appended to
`text_parts` only when `data.strip()` is truthy, and it is appended
unmodified. -/
def feedData (textParts : List String) (data : String) : List String :=
  if isWsOnly data then textParts else textParts ++ [data]

/-- The `text_parts` list built by feeding the whole content through the
parser. -/
def htmlFeed (content : String) : List String :=
  (htmlTextNodes content).foldl feedData []

/-- Embedding of `MailBody.__str__` and its `HTMLMailBody` override: the
plain-text variant renders its raw content, the HTML variant renders
`''.join(text_parts)` of its parsed content. -/
def MailBody.str : MailBody → String
  | .plainText _ s => s
  | .htmlBody _ s => String.join (htmlFeed s)

theorem foldl_feedData (l : List String) (acc : List String) :
    l.foldl feedData acc = acc ++ l.filter (fun d => !(isWsOnly d)) := by
  induction l generalizing acc with
  | nil => simp
  | cons d rest ih =>
    simp only [List.foldl_cons, List.filter_cons]
    by_cases h : isWsOnly d
    · rw [feedData, if_pos h, ih]
      simp [h]
    · rw [feedData, if_neg h, ih]
      simp [h]

theorem htmlTokenize_no_lt (l : List Char) (inTag : Bool) (acc : List Char)
    (hacc : '<' ∉ acc) :
    ∀ t ∈ htmlTokenize l inTag acc, '<' ∉ t.data := by
  induction l generalizing inTag acc with
  | nil =>
    intro t ht
    simp only [htmlTokenize] at ht
    by_cases h : acc.isEmpty
    · rw [if_pos h] at ht
      cases ht
    · rw [if_neg h] at ht
      have : t = String.mk acc.reverse := by simpa using ht
      subst this
      simpa [List.mem_reverse] using hacc
  | cons ch rest ih =>
    intro t ht
    cases inTag with
    | true =>
      simp only [htmlTokenize] at ht
      by_cases hch : ch = '>'
      · rw [if_pos hch] at ht
        exact ih false acc hacc t ht
      · rw [if_neg hch] at ht
        exact ih true acc hacc t ht
    | false =>
      simp only [htmlTokenize] at ht
      by_cases hch : ch = '<'
      · rw [if_pos hch] at ht
        by_cases hae : acc.isEmpty
        · rw [if_pos hae] at ht
          exact ih true [] (by simp) t ht
        · rw [if_neg hae] at ht
          rcases List.mem_cons.1 ht with h | h
          · subst h
            simpa [List.mem_reverse] using hacc
          · exact ih true [] (by simp) t h
      · rw [if_neg hch] at ht
        have hacc' : '<' ∉ ch :: acc := by
          intro hx
          rcases List.mem_cons.1 hx with h | h
          · exact hch h.symm
          · exact hacc h
        exact ih false (ch :: acc) hacc' t ht

/-- C7: rendering an HTML body strips all markup tags (no emitted text
node contains a tag opener) and yields the concatenation, in document
order with no added separators, of exactly those text nodes that are not
whitespace-only; on `<p>Hello <b>world</b></p>` it yields
`"Hello world"`. -/
theorem c7_html_rendering (ct s : String) :
    MailBody.str (.htmlBody ct s) =
      String.join ((htmlTextNodes s).filter (fun d => !(isWsOnly d))) ∧
    (∀ t ∈ htmlTextNodes s, '<' ∉ t.data) ∧
    MailBody.str (.htmlBody "text/html" "<p>Hello <b>world</b></p>") =
      "Hello world" := by
  refine ⟨?_, ?_, ?_⟩
  · simp only [MailBody.str, htmlFeed, foldl_feedData, List.nil_append]
  · exact htmlTokenize_no_lt s.data false [] (by simp)
  · decide

/-- Concrete mailbox for the C1 witness. -/
def mbC1 : Mailbox := ⟨[1, 2], fun _ => .ok "a"⟩

/-- Concrete cycle for the C1 witness. -/
def cC1 : Cycle := ⟨mbC1, 10⟩

theorem c1_checkpoint_frame_witness :
    2 ∈ (monitoring_new_mails 2 (fun _ => false) 5 [cC1]).1.queries ∧
    (monitoring_new_mails 2 (fun _ => false) 5 [cC1]).1.checkpoint_uid = 2 ∧
    2 = 2 :=
  ⟨by decide, (c1_checkpoint_frame 2 (fun _ => false) 5 [cC1]).1,
    (c1_checkpoint_frame 2 (fun _ => false) 5 [cC1]).2 2 (by decide)⟩

theorem c7_html_rendering_witness :
    "x" ∈ htmlTextNodes "<b>x</b>" ∧ '<' ∉ ("x" : String).data :=
  ⟨by decide, (c7_html_rendering "text/html" "<b>x</b>").2.1 "x" (by decide)⟩

/-- Split a character list at the first occurrence of `c`, embedding the
Python `split(sep, 1)` followed by a two-way unpacking: `none` models the
`ValueError` raised when `sep` is absent. -/
def splitFirstList (c : Char) : List Char → Option (List Char × List Char)
  | [] => none
  | x :: rest =>
    if x = c then some ([], rest)
    else
      match splitFirstList c rest with
      | none => none
      | some (a, b) => some (x :: a, b)

/-- Embedded `MailAddress` value: the source's attributes, including its
misspelled `_mailaddress_dmail_area` and
`_mailaddress_user_plus_bsae_user_area` names. -/
structure MailAddress where
  mailaddress : String
  has_name : Bool
  name : String
  mailaddress_user_area : String
  mailaddress_dmail_area : String
  is_plusaddress : Bool
  plus_bsae_user_area : String
  plus_tag_area : String
deriving DecidableEq

/-- Embedding of `MailAddress.__init__`: record name truthiness, split the
address on the first `@` (absence raises, modelled as `none`), then split
the user part on the first `+`; without a `+` the base name is the whole
user part and the tag is empty. -/
def MailAddress.init (mailaddress name : String) : Option MailAddress :=
  match splitFirstList '@' mailaddress.data with
  | none => none
  | some (userL, domainL) =>
    match splitFirstList '+' userL with
    | some (baseL, tagL) =>
      some ⟨mailaddress, !name.isEmpty, if name.isEmpty then "" else name,
        String.mk userL, String.mk domainL, true,
        String.mk baseL, String.mk tagL⟩
    | none =>
      some ⟨mailaddress, !name.isEmpty, if name.isEmpty then "" else name,
        String.mk userL, String.mk domainL, false, String.mk userL, ""⟩

theorem mk_data (s : String) : String.mk s.data = s := by
  cases s
  rfl

theorem splitFirstList_not_mem (c : Char) (l : List Char) (h : c ∉ l) :
    splitFirstList c l = none := by
  induction l with
  | nil => rfl
  | cons x rest ih =>
    have hx : ¬ x = c := fun hh => h (by simp [hh])
    rw [splitFirstList, if_neg hx, ih (fun hh => h (by simp [hh]))]

theorem splitFirstList_append (c : Char) (l1 l2 : List Char) (h : c ∉ l1) :
    splitFirstList c (l1 ++ c :: l2) = some (l1, l2) := by
  induction l1 with
  | nil => simp [splitFirstList]
  | cons x rest ih =>
    have hx : ¬ x = c := fun hh => h (by simp [hh])
    rw [List.cons_append, splitFirstList, if_neg hx,
      ih (fun hh => h (by simp [hh]))]

theorem data_append (s t : String) : (s ++ t).data = s.data ++ t.data := by
  cases s
  cases t
  rfl

/-- C9: an address `local@domain` parses into `localPart = local` and
`domain = domain`; a local part `a+b` gives base name `a`, tag `b` and the
plus-addressed flag; a local part without `+` gives the full local part as
base name, an empty tag, and no plus-addressed flag. -/
theorem c9_mailaddress (locl domain a b name : String)
    (hat : '@' ∉ locl.data) :
    (∃ ma, MailAddress.init (locl ++ "@" ++ domain) name = some ma ∧
      ma.mailaddress_user_area = locl ∧
      ma.mailaddress_dmail_area = domain ∧
      ('+' ∉ locl.data → ma.is_plusaddress = false ∧
        ma.plus_bsae_user_area = locl ∧ ma.plus_tag_area = "")) ∧
    ('@' ∉ a.data → '@' ∉ b.data → '+' ∉ a.data →
      ∃ ma, MailAddress.init (a ++ "+" ++ b ++ "@" ++ domain) name = some ma ∧
        ma.is_plusaddress = true ∧ ma.plus_bsae_user_area = a ∧
        ma.plus_tag_area = b) := by
  constructor
  · have hdata : (locl ++ "@" ++ domain).data =
        locl.data ++ '@' :: domain.data := by
      rw [data_append, data_append]
      simp
    have hsplit := splitFirstList_append '@' locl.data domain.data hat
    cases hp : splitFirstList '+' locl.data with
    | none =>
      refine ⟨⟨locl ++ "@" ++ domain, !name.isEmpty,
        if name.isEmpty then "" else name, String.mk locl.data,
        String.mk domain.data, false, String.mk locl.data, ""⟩, ?_, ?_, ?_, ?_⟩
      · simp only [MailAddress.init, hdata, hsplit, hp]
      · exact mk_data locl
      · exact mk_data domain
      · exact fun _ => ⟨rfl, mk_data locl, rfl⟩
    | some pr =>
      obtain ⟨baseL, tagL⟩ := pr
      refine ⟨⟨locl ++ "@" ++ domain, !name.isEmpty,
        if name.isEmpty then "" else name, String.mk locl.data,
        String.mk domain.data, true, String.mk baseL, String.mk tagL⟩,
        ?_, ?_, ?_, ?_⟩
      · simp only [MailAddress.init, hdata, hsplit, hp]
      · exact mk_data locl
      · exact mk_data domain
      · intro hplus
        rw [splitFirstList_not_mem '+' locl.data hplus] at hp
        exact Option.noConfusion hp
  · intro ha hb hpa
    have hdata : (a ++ "+" ++ b ++ "@" ++ domain).data =
        (a.data ++ '+' :: b.data) ++ '@' :: domain.data := by
      rw [data_append, data_append, data_append, data_append]
      simp
    have huser : '@' ∉ a.data ++ '+' :: b.data := by
      intro hx
      rcases List.mem_append.1 hx with h | h
      · exact ha h
      · rcases List.mem_cons.1 h with h | h
        · exact absurd h (by decide)
        · exact hb h
    have hsplit :=
      splitFirstList_append '@' (a.data ++ '+' :: b.data) domain.data huser
    have hsplus := splitFirstList_append '+' a.data b.data hpa
    refine ⟨⟨a ++ "+" ++ b ++ "@" ++ domain, !name.isEmpty,
      if name.isEmpty then "" else name,
      String.mk (a.data ++ '+' :: b.data), String.mk domain.data, true,
      String.mk a.data, String.mk b.data⟩, ?_, rfl, mk_data a, mk_data b⟩
    simp only [MailAddress.init, hdata, hsplit, hsplus]

theorem c9_mailaddress_witness :
    ('@' ∉ ("x" : String).data ∧ '@' ∉ ("user" : String).data ∧
      '@' ∉ ("tag" : String).data ∧ '+' ∉ ("user" : String).data) ∧
    (∃ ma, MailAddress.init
        ("user" ++ "+" ++ "tag" ++ "@" ++ "example.com") "Nm" = some ma ∧
      ma.is_plusaddress = true ∧ ma.plus_bsae_user_area = "user" ∧
      ma.plus_tag_area = "tag") :=
  ⟨⟨by decide, by decide, by decide, by decide⟩,
    (c9_mailaddress "x" "example.com" "user" "tag" "Nm" (by decide)).2
      (by decide) (by decide) (by decide)⟩

/-- Character codec as the Python `bytes.decode` machinery exposes it:
`decodeUnits` maps a byte sequence to its decoded units in order, where an
`.error` unit marks a byte sequence that is invalid in the codec. -/
structure Codec where
  decodeUnits : List Nat → List (Except Unit Char)

/-- Python error handlers for `bytes.decode`: `strict` raises at the first
invalid sequence, `ignore` drops invalid sequences from the output,
`replace` substitutes U+FFFD for each invalid sequence. -/
inductive PyErrMode where
  | strict
  | ignore
  | replace
deriving DecidableEq

/-- Application of a Python decode error handler to the decoded units. -/
def applyErrMode : PyErrMode → List (Except Unit Char) → Except Unit (List Char)
  | _, [] => .ok []
  | m, .ok c :: rest => Except.map (fun cs => c :: cs) (applyErrMode m rest)
  | .strict, .error _ :: _ => .error ()
  | .ignore, .error _ :: rest => applyErrMode .ignore rest
  | .replace, .error _ :: rest =>
    Except.map (fun cs => '�' :: cs) (applyErrMode .replace rest)

/-- Embedding of `bytes.decode(charset, errors=mode)` for a resolved
codec. -/
def pyDecode (codec : Codec) (m : PyErrMode) (bs : List Nat) :
    Except Unit String :=
  Except.map String.mk (applyErrMode m (codec.decodeUnits bs))

/-- Continuation-byte test of the UTF-8 codec model. -/
def contByte (b : Nat) : Bool := decide (0x80 ≤ b) && decide (b < 0xC0)

/-- Second-byte constraints of three-byte UTF-8 sequences: no overlong
encodings after the lead `0xE0` and no surrogates after the lead `0xED`. -/
def valid3 (b b2 : Nat) : Bool :=
  (decide (b ≠ 0xE0) || decide (0xA0 ≤ b2)) &&
    (decide (b ≠ 0xED) || decide (b2 < 0xA0))

/-- Second-byte constraints of four-byte UTF-8 sequences: no overlong
encodings after the lead `0xF0` and nothing above U+10FFFF after the lead
`0xF4`. -/
def valid4 (b b2 : Nat) : Bool :=
  (decide (b ≠ 0xF0) || decide (0x90 ≤ b2)) &&
    (decide (b ≠ 0xF4) || decide (b2 < 0x90))

/-- Model of Python's UTF-8 codec (an external collaborator): each valid
one- to four-byte sequence decodes to its code point; an invalid lead or
continuation byte yields one invalid unit. The fuel argument only bounds
the recursion; every step consumes at least one byte, so fuel equal to the
byte count (as `utf8DecodeUnits` passes) never runs out. -/
def utf8DecodeAux : Nat → List Nat → List (Except Unit Char)
  | 0, _ => []
  | _, [] => []
  | fuel + 1, b :: rest =>
    if b < 0x80 then .ok (Char.ofNat b) :: utf8DecodeAux fuel rest
    else if b < 0xC2 then .error () :: utf8DecodeAux fuel rest
    else if b < 0xE0 then
      match rest with
      | b2 :: rest2 =>
        if contByte b2 then
          .ok (Char.ofNat (0x40 * (b - 0xC0) + (b2 - 0x80))) ::
            utf8DecodeAux fuel rest2
        else .error () :: utf8DecodeAux fuel rest
      | [] => [.error ()]
    else if b < 0xF0 then
      match rest with
      | b2 :: b3 :: rest3 =>
        if contByte b2 && contByte b3 && valid3 b b2 then
          .ok (Char.ofNat (0x1000 * (b - 0xE0) + 0x40 * (b2 - 0x80) +
            (b3 - 0x80))) :: utf8DecodeAux fuel rest3
        else .error () :: utf8DecodeAux fuel rest
      | _ => .error () :: utf8DecodeAux fuel rest
    else if b < 0xF5 then
      match rest with
      | b2 :: b3 :: b4 :: rest4 =>
        if contByte b2 && contByte b3 && contByte b4 && valid4 b b2 then
          .ok (Char.ofNat (0x40000 * (b - 0xF0) + 0x1000 * (b2 - 0x80) +
            0x40 * (b3 - 0x80) + (b4 - 0x80))) :: utf8DecodeAux fuel rest4
        else .error () :: utf8DecodeAux fuel rest
      | _ => .error () :: utf8DecodeAux fuel rest
    else .error () :: utf8DecodeAux fuel rest

/-- Decoded units of a byte sequence under the UTF-8 codec model. -/
def utf8DecodeUnits (bs : List Nat) : List (Except Unit Char) :=
  utf8DecodeAux bs.length bs

/-- The UTF-8 codec model packaged as a `Codec`. -/
def utf8Codec : Codec := ⟨utf8DecodeUnits⟩

/-- Codec registry holding only UTF-8; any other charset name is an
unknown codec, for which Python raises `LookupError` regardless of the
error handler. -/
def stdLookup : String → Option Codec :=
  fun nm => if nm = "utf-8" then some utf8Codec else none

/-- One element of the list returned by `email.header.decode_header`:
either an already-decoded text fragment or a byte fragment tagged with its
declared charset (absent charset decodes with the UTF-8 fallback). -/
inductive HeaderPart where
  | text (s : String)
  | encodedBytes (bs : List Nat) (charset : Option String)

/-- Embedding of the accumulation loop of `IMAPMail.__decode_mime_header`:
text fragments are appended as is; byte fragments are decoded with
`part.decode(enc or "utf-8", errors="ignore")`, where an unknown charset
name raises `LookupError` (modelled as `.error`). -/
def decodeHeaderLoop (lookup : String → Option Codec) :
    List HeaderPart → Except Unit String
  | [] => .ok ""
  | .text s :: rest =>
    Except.map (fun t => s ++ t) (decodeHeaderLoop lookup rest)
  | .encodedBytes bs enc :: rest =>
    match lookup (enc.getD "utf-8") with
    | none => .error ()
    | some codec =>
      match pyDecode codec .ignore bs with
      | .ok s => Except.map (fun t => s ++ t) (decodeHeaderLoop lookup rest)
      | .error e => .error e

/-- Embedding of `IMAPMail.__decode_mime_header`: a `None` header value
returns the empty string; otherwise the decoded fragments are
concatenated. -/
def decode_mime_header (lookup : String → Option Codec) :
    Option (List HeaderPart) → Except Unit String
  | none => .ok ""
  | some parts => decodeHeaderLoop lookup parts

/-- Embedding of the body decode in `IMAPMail.__init__`:
`payload.decode(part.get_content_charset() or "utf-8", errors="ignore")`. -/
def body_decode (lookup : String → Option Codec) (charset : Option String)
    (bs : List Nat) : Except Unit String :=
  match lookup (charset.getD "utf-8") with
  | none => .error ()
  | some codec => pyDecode codec .ignore bs

/-- Projection of a decoded unit to its character, dropping invalid
units. -/
def charOfUnit : Except Unit Char → Option Char
  | .ok c => some c
  | .error _ => none

/-- Resolvability of one header fragment's effective charset in the codec
registry. -/
def charsetResolvable (lookup : String → Option Codec) : HeaderPart → Bool
  | .text _ => true
  | .encodedBytes _ enc => (lookup (enc.getD "utf-8")).isSome

theorem applyErrMode_ignore (units : List (Except Unit Char)) :
    applyErrMode .ignore units = .ok (units.filterMap charOfUnit) := by
  induction units with
  | nil => rfl
  | cons u rest ih =>
    cases u with
    | ok c =>
      simp [applyErrMode, ih, List.filterMap_cons, charOfUnit, Except.map]
    | error e =>
      simp [applyErrMode, ih, List.filterMap_cons, charOfUnit]

theorem decodeHeaderLoop_ok (lookup : String → Option Codec)
    (parts : List HeaderPart)
    (hres : ∀ p ∈ parts, charsetResolvable lookup p = true) :
    ∃ s, decodeHeaderLoop lookup parts = .ok s := by
  induction parts with
  | nil => exact ⟨"", rfl⟩
  | cons p rest ih =>
    obtain ⟨t, ht⟩ := ih (fun q hq => hres q (by simp [hq]))
    cases p with
    | text s =>
      exact ⟨s ++ t, by simp [decodeHeaderLoop, ht, Except.map]⟩
    | encodedBytes bs enc =>
      have hr := hres (.encodedBytes bs enc) (by simp)
      rw [charsetResolvable, Option.isSome_iff_exists] at hr
      obtain ⟨codec, hc⟩ := hr
      refine ⟨String.mk ((codec.decodeUnits bs).filterMap charOfUnit) ++ t, ?_⟩
      simp [decodeHeaderLoop, hc, pyDecode, applyErrMode_ignore, ht, Except.map]

/-- C8 (amended): when every fragment's effective charset (the declared
one, with UTF-8 as the fallback for an absent charset) resolves to a known
codec, decoding MIME-encoded header values and the selected body part
never raises: invalid byte sequences are dropped from the decoded output
(`errors="ignore"`), not replaced. -/
theorem c8_decode_never_raises (lookup : String → Option Codec)
    (parts : List HeaderPart) (charset : Option String) (bs : List Nat)
    (hres : ∀ p ∈ parts, charsetResolvable lookup p = true)
    (hbody : (lookup (charset.getD "utf-8")).isSome = true) :
    (∃ s, decode_mime_header lookup (some parts) = .ok s) ∧
    (∃ s, body_decode lookup charset bs = .ok s) ∧
    decode_mime_header lookup none = .ok "" ∧
    (∀ codec : Codec, ∀ bs2 : List Nat,
      pyDecode codec .ignore bs2 =
        .ok (String.mk ((codec.decodeUnits bs2).filterMap charOfUnit))) := by
  refine ⟨?_, ?_, rfl, ?_⟩
  · obtain ⟨s, hs⟩ := decodeHeaderLoop_ok lookup parts hres
    exact ⟨s, by simp [decode_mime_header, hs]⟩
  · rw [Option.isSome_iff_exists] at hbody
    obtain ⟨codec, hc⟩ := hbody
    refine ⟨String.mk ((codec.decodeUnits bs).filterMap charOfUnit), ?_⟩
    simp [body_decode, hc, pyDecode, applyErrMode_ignore, Except.map]
  · intro codec bs2
    simp [pyDecode, applyErrMode_ignore, Except.map]

/-- C8 counterexample: on the bytes `61 FF 62` (an invalid byte between
two ASCII letters) the code's `errors="ignore"` decode yields `"ab"`,
dropping the invalid byte, whereas the claim's replacement semantics
would yield `"a�b"`; moreover a declared unknown charset is an
error (Python `LookupError`), not a permissive decode. -/
theorem c8_counterexample :
    decode_mime_header stdLookup
      (some [.encodedBytes [97, 255, 98] none]) = .ok "ab" ∧
    pyDecode utf8Codec .replace [97, 255, 98] = .ok "a�b" ∧
    ("ab" : String) ≠ "a�b" ∧
    decode_mime_header stdLookup
      (some [.encodedBytes [97] (some "x-unknown")]) = .error () := by
  refine ⟨rfl, rfl, by decide, rfl⟩

theorem c8_decode_never_raises_witness :
    ((∀ p ∈ [HeaderPart.encodedBytes [97, 255, 98] none],
        charsetResolvable stdLookup p = true) ∧
      (stdLookup ((none : Option String).getD "utf-8")).isSome = true) ∧
    ((∃ s, decode_mime_header stdLookup
        (some [HeaderPart.encodedBytes [97, 255, 98] none]) = .ok s) ∧
      (∃ s, body_decode stdLookup none [97, 255, 98] = .ok s) ∧
      decode_mime_header stdLookup none = .ok "" ∧
      (∀ codec : Codec, ∀ bs2 : List Nat,
        pyDecode codec .ignore bs2 =
          .ok (String.mk ((codec.decodeUnits bs2).filterMap charOfUnit)))) :=
  ⟨⟨by decide, by decide⟩,
    c8_decode_never_raises stdLookup [.encodedBytes [97, 255, 98] none]
      none [97, 255, 98] (by decide) (by decide)⟩
